import Mathlib

/-!
Shallow embedding of the selene training / mutation-scoring core
(`selene/model_train.py`, `selene/predict/model_predict.py`,
`selene_sdk/predict/predict_handlers/write_predictions_handler.py`)
together with theorems settling the specification claims about it.

Python lists become Lean `List`s, strings become `List Char`, numpy
one-hot matrices become `List (List Nat)`, Python `float` losses become
`WithTop ℚ` (so that `float("inf")` is `⊤`), raising an exception
becomes returning `Except.error`.
-/

namespace Selene

/-- The DNA alphabet `Genome.BASES_ARR`.  Modelled from the spec: the
`Genome` class is not part of the analysed sources; the spec describes
the default alphabet as the DNA bases. -/
def BASES_ARR : List Char := ['A', 'C', 'G', 'T']

/-- The DNA base-to-index dictionary `Genome.BASE_TO_INDEX`.  Modelled
from the spec: the `Genome` class is not part of the analysed sources;
the spec describes the one-hot columns as indexed by the DNA bases. -/
def BASE_TO_INDEX : Char → Option Nat := fun c =>
  if c = 'A' then some 0
  else if c = 'C' then some 1
  else if c = 'G' then some 2
  else if c = 'T' then some 3
  else none

/-- Model of `itertools.combinations(l, k)`: all sublists of `l` of length `k`,
in the order produced by `itertools` (lexicographic in the positions of
the chosen elements). -/
def combinations {α : Type} : Nat → List α → List (List α)
  | 0, _ => [[]]
  | _ + 1, [] => []
  | k + 1, x :: xs =>
      ((combinations k xs).map (fun c => x :: c)) ++ combinations (k + 1) xs

/-- Model of `itertools.product(*ls)`: the Cartesian product of the lists `ls`,
first factor varying slowest. -/
def product_lists {α : Type} : List (List α) → List (List α)
  | [] => [[]]
  | l :: ls => l.flatMap (fun x => (product_lists ls).map (fun rest => x :: rest))

/-- Function `in_silico_mutagenesis_sequences` (model_predict.py lines 19-68):
for every combination of `mutate_n_bases` distinct positions and every
choice of a non-reference base at each chosen position, one mutation
spec (a list of (position, replacement) pairs). -/
def in_silico_mutagenesis_sequences {α : Type} [DecidableEq α]
    (sequence : List α) (mutate_n_bases : Nat) (bases_arr : List α) :
    List (List (Nat × α)) :=
  let sequence_alts := sequence.map (fun ref => bases_arr.filter (fun b => b ≠ ref))
  (combinations mutate_n_bases (List.range sequence.length)).flatMap
    (fun indices =>
      (product_lists (indices.map (fun i => sequence_alts.getD i []))).map
        (fun mutations => indices.zip mutations))

/-- The list of mutation specs that `AnalyzeSequences.in_silico_mutagenesis`
(model_predict.py lines 295-332) actually enumerates and scores: line
314 calls `in_silico_mutagenesis_sequences(input_sequence, mutate_n_bases=1)`
with the literal `1`, ignoring the method's own `mutate_n_bases` argument. -/
def in_silico_mutagenesis_enumerated
    (input_sequence : List Char) (mutate_n_bases : Nat) : List (List (Nat × Char)) :=
  in_silico_mutagenesis_sequences input_sequence 1 BASES_ARR

/-- A one-hot encoding row: exactly one `1`, all other entries `0`. -/
def one_hot_row (row : List Nat) : Prop :=
  row.count 1 = 1 ∧ ∀ x ∈ row, x = 0 ∨ x = 1

instance one_hot_row_decidable (row : List Nat) : Decidable (one_hot_row row) := by
  unfold one_hot_row
  exact inferInstance

/-- Statements `mutated_seq[position, :] = 0; mutated_seq[position, replace_base] = 1`
(model_predict.py lines 108-109): zero the row at `position`, then set
column `replace_base` to 1. -/
def set_row (mat : List (List Nat)) (position replace_base : Nat) : List (List Nat) :=
  mat.set position (((mat.getD position []).map (fun _ => 0)).set replace_base 1)

/-- The mutation loop of `mutate_sequence` (model_predict.py lines 106-109),
acting on the (already copied) matrix.  A missing dictionary key raises
`KeyError` and an out-of-range row or column index raises `IndexError`;
both are modelled as `Except.error`.  The dictionary lookup happens first,
as in the source. -/
def mutate_sequence_go (base_to_index : Char → Option Nat) :
    List (List Nat) → List (Nat × Char) → Except Unit (List (List Nat))
  | mutated_seq, [] => .ok mutated_seq
  | mutated_seq, pa :: rest =>
      match base_to_index pa.2 with
      | none => .error ()
      | some replace_base =>
          if pa.1 < mutated_seq.length
              ∧ replace_base < (mutated_seq.getD pa.1 []).length then
            mutate_sequence_go base_to_index (set_row mutated_seq pa.1 replace_base) rest
          else .error ()

/-- Function `mutate_sequence` (model_predict.py lines 82-110): copy the encoding
(`np.copy`), then apply each (position, base) substitution in order. -/
def mutate_sequence (encoded_sequence : List (List Nat))
    (mutation_information : List (Nat × Char))
    (base_to_index : Char → Option Nat) : Except Unit (List (List Nat)) :=
  mutate_sequence_go base_to_index encoded_sequence mutation_information

/-- A heap of numpy arrays, for stating the copy-on-write behaviour of
`mutate_sequence`: each slot is one array. -/
abbrev Store : Type := List (List (List Nat))

/-- Write through an array reference: replace row `pos` of the array in
slot `arr` as `set_row` does. -/
def store_set_row (s : Store) (arr pos col : Nat) : Store :=
  List.set s arr (set_row (List.getD s arr []) pos col)

/-- The mutation loop of `mutate_sequence`, with its writes performed
through the reference `m` into the store (every `mutated_seq[...] = ...`
of lines 108-109 is a write to the array allocated by `np.copy`). -/
def mutate_sequence_prog_go (base_to_index : Char → Option Nat) :
    Store → Nat → List (Nat × Char) → Except Unit Store
  | s, _, [] => .ok s
  | s, m, pa :: rest =>
      match base_to_index pa.2 with
      | none => .error ()
      | some replace_base =>
          if pa.1 < (List.getD s m []).length
              ∧ replace_base < ((List.getD s m []).getD pa.1 []).length then
            mutate_sequence_prog_go base_to_index
              (store_set_row s m pa.1 replace_base) m rest
          else .error ()

/-- Function `mutate_sequence` (model_predict.py lines 82-110) at the store level:
`np.copy(encoded_sequence)` allocates a fresh slot holding a copy of the
array in slot `enc`; all subsequent writes target the fresh slot.  Returns
the final store and the slot of the result. -/
def mutate_sequence_prog (s : Store) (enc : Nat)
    (mutation_information : List (Nat × Char))
    (base_to_index : Char → Option Nat) : Except Unit (Store × Nat) :=
  let m := List.length s
  (mutate_sequence_prog_go base_to_index
      (s ++ [List.getD s enc []]) m mutation_information).map
    (fun s2 => (s2, m))

/-- Python's `needle in hay` substring test. -/
def list_contains_sub (needle : List Char) : List Char → Bool
  | [] => needle.isEmpty
  | c :: rest => needle.isPrefixOf (c :: rest) || list_contains_sub needle rest

/-- Python's `str.strip()`: drop leading and trailing whitespace. -/
def pyStrip (l : List Char) : List Char :=
  ((l.dropWhile Char.isWhitespace).reverse.dropWhile Char.isWhitespace).reverse

/-- Value of a digit string. -/
def digits_to_nat (ds : List Char) : Nat :=
  ds.foldl (fun a c => a * 10 + (c.toNat - 48)) 0

/-- Python's `int(str)`: optional sign followed by at least one digit
(after stripping whitespace); anything else raises `ValueError`, modelled
as `none`. -/
def pyInt (l : List Char) : Option Int :=
  match pyStrip l with
  | '-' :: ds =>
      if ds ≠ [] ∧ ds.all Char.isDigit then some (-(digits_to_nat ds : Int)) else none
  | '+' :: ds =>
      if ds ≠ [] ∧ ds.all Char.isDigit then some ((digits_to_nat ds : Int)) else none
  | ds =>
      if ds ≠ [] ∧ ds.all Char.isDigit then some ((digits_to_nat ds : Int)) else none

/-- Constant `VCF_REQUIRED_COLS` (model_predict.py line 15). -/
def VCF_REQUIRED_COLS : List (List Char) :=
  [String.toList "#CHROM", String.toList "POS", String.toList "ID",
    String.toList "REF", String.toList "ALT"]

/-- Errors `read_vcf_file` can raise: `ValueError` on a bad header,
`ValueError` from `int()` on a non-numeric position column, and the
`NameError` Python raises on an empty file (the loop variable `index` is
then never bound). -/
inductive VcfError where
  | emptyFile : VcfError
  | badHeader : VcfError
  | intParse : VcfError
deriving DecidableEq

/-- One parsed variant: (chrom, pos, id, ref, alt). -/
abbrev Variant := List Char × Int × List Char × List Char × List Char

/-- The header loop of `read_vcf_file` (model_predict.py lines 151-161):
walk the lines; `break` (returning the current index) at the first line
with no `#`, or at a `#CHROM` line after validating its first 5 columns.
If the loop runs off the end, Python leaves `index` at the last line. -/
def vcf_header_scan : List (List Char) → Nat → Except VcfError Nat
  | [], i => if i = 0 then .error .emptyFile else .ok (i - 1)
  | line :: rest, i =>
      if ¬ line.contains '#' then .ok i
      else if list_contains_sub (String.toList "#CHROM") line then
        if ((pyStrip line).splitOn '\t').take 5 = VCF_REQUIRED_COLS then .ok i
        else .error .badHeader
      else vcf_header_scan rest (i + 1)

/-- Function `read_vcf_file` (model_predict.py lines 133-173).  Note line 163 loops
over `lines[index:]` — from the line the header loop stopped AT, not after
it. -/
def read_vcf_file (lines : List (List Char)) : Except VcfError (List Variant) := do
  let index ← vcf_header_scan lines 0
  (lines.drop index).foldlM
    (fun variants line =>
      let cols := (pyStrip line).splitOn '\t'
      if cols.length < 5 then pure variants
      else
        match pyInt (cols.getD 1 []) with
        | none => .error .intParse
        | some pos =>
            pure (variants ++ [(cols.getD 0 [], pos, cols.getD 2 [],
              cols.getD 3 [], cols.getD 4 [])]))
    []

/-- State of a `WritePredictionsHandler`
(write_predictions_handler.py): the buffered batches (`_results`,
`_samples`, `_NA_samples`) and the two output files it writes to.  `ρ` is
one prediction row, `ι` one identifier row.  The file contents of
`write_to_file`/`write_NAs_to_file` (handler.py, not under the analysed
sources) are modelled from the spec: buffered rows are appended to the
output, NA identifiers to the sibling NA output. -/
structure HandlerState (ρ ι : Type) where
  results : List (List ρ)
  samples : List (List ι)
  NA_samples : List (List ι)
  main_file : List (ι × ρ)
  NA_file : List ι
  closed : Bool

/-- A freshly constructed handler: empty buffers, open handle. -/
def init_handler_state {ρ ι : Type} : HandlerState ρ ι :=
  { results := [], samples := [], NA_samples := [],
    main_file := [], NA_file := [], closed := false }

/-- Method `WritePredictionsHandler.write_to_file`
(write_predictions_handler.py lines 101-124): first dump any NA samples
to the NA file; then, if the results buffer is EMPTY, close the output
handle and return; otherwise stack and write the buffered rows, clear
the buffers, and close the handle iff `close` is true. -/
def write_to_file {ρ ι : Type} (st : HandlerState ρ ι) (close : Bool) :
    HandlerState ρ ι :=
  let st1 :=
    if st.NA_samples.isEmpty then st
    else
      { st with NA_file := st.NA_file ++ st.NA_samples.flatten, NA_samples := [] }
  if st1.results.isEmpty then
    { st1 with closed := true }
  else
    { st1 with
        main_file := st1.main_file ++ st1.samples.flatten.zip st1.results.flatten,
        results := [], samples := [],
        closed := st1.closed || close }

/-- Method `WritePredictionsHandler.handle_batch_predictions`
(write_predictions_handler.py lines 77-99): append the batch matrix and
its identifiers to the buffers, then `if len(self._results) > 200000:
self.write_to_file()` — the threshold counts buffered BATCHES. -/
def handle_batch_predictions {ρ ι : Type} (st : HandlerState ρ ι)
    (batch_predictions : List ρ) (batch_ids : List ι) : HandlerState ρ ι :=
  let st1 := { st with results := st.results ++ [batch_predictions],
                       samples := st.samples ++ [batch_ids] }
  if 200000 < st1.results.length then write_to_file st1 false else st1

/-- The handler state used to refute the rows-based auto-flush reading of
the threshold: one single batch of 200001 rows. -/
def c7_probe_state : HandlerState Nat Nat :=
  handle_batch_predictions init_handler_state
    (List.replicate 200001 0) (List.replicate 200001 0)

/-- Coordinate-addressable sequence provider.  Modelled from the spec:
the `Genome` class is external to the analysed sources; the spec treats
it as a provider with a bounds test (`sequence_in_bounds`) and a
coordinate-range read (`get_sequence_from_coords`). -/
structure GenomeM where
  inBounds : List Char → Int → Int → Bool
  get : List Char → Int → Int → List Char

/-- One-hot encoding of a sequence.  Modelled from the spec (glossary):
a single 1 at the symbol's alphabet index per row. -/
def sequence_to_encoding (s : List Char) : List (List Nat) :=
  s.map (fun c =>
    match BASE_TO_INDEX c with
    | some i => (List.replicate 4 0).set i 1
    | none => List.replicate 4 0)

/-- Field `_start_radius` of `AnalyzeSequences.__init__` (line 189). -/
def start_radius (sequence_length : Nat) : Nat := sequence_length / 2

/-- Field `_end_radius` of `AnalyzeSequences.__init__` (lines 190-192). -/
def end_radius (sequence_length : Nat) : Nat :=
  sequence_length / 2 + (if sequence_length % 2 ≠ 0 then 1 else 0)

/-- Body of the `for a in all_alts` loop of `AnalyzeSequences._process_alts`
(model_predict.py lines 365-384): splice the alt allele between the window
halves; truncate if too long; if too short, extend forward from `end`
when those coordinates are in bounds, otherwise prepend the window
`[start - sequence_length + len(alt_sequence), start)`; finally `assert
len(alt_sequence) == self.sequence_length` (modelled as `Except.error`
on failure). -/
def process_one_alt (g : GenomeM) (sequence_length startR : Nat)
    (chrom ref a : List Char) (start endp : Int)
    (reference_sequence : List Char) : Except Unit (List Char) :=
  let pre := reference_sequence.take startR
  let suf := reference_sequence.drop (startR + ref.length)
  let alt0 := pre ++ a ++ suf
  let alt1 :=
    if sequence_length < alt0.length then alt0.take sequence_length
    else if alt0.length < sequence_length then
      let add_start := endp
      let add_end := endp + ((sequence_length : Int) - (alt0.length : Int))
      if ¬ (g.inBounds chrom add_start add_end) then
        g.get chrom (start - (sequence_length : Int) + (alt0.length : Int)) start
          ++ alt0
      else alt0 ++ g.get chrom add_start add_end
    else alt0
  if alt1.length = sequence_length then .ok alt1 else .error ()

/-- Method `AnalyzeSequences._process_alts` (lines 362-387): one encoding
per alt allele. -/
def process_alts (g : GenomeM) (sequence_length startR : Nat)
    (chrom ref : List Char) (all_alts : List (List Char)) (start endp : Int)
    (reference_sequence : List Char) : Except Unit (List (List (List Nat))) :=
  all_alts.mapM (fun a =>
    (process_one_alt g sequence_length startR chrom ref a start endp
      reference_sequence).map sequence_to_encoding)

/-- Accumulator state of the `variant_effect_prediction` loop (lines
418-455).  `na_rows` are the identifiers routed to the reporters' NA
sinks via `handle_NA`; `main_rows` the identifiers routed to the main
output via `handle_ref_alt_predictions` (one output row per (variant,
alt) pair, for each reporter). -/
structure VepState where
  batch_ref_seqs : List (List (List Nat))
  batch_alt_seqs : List (List (List Nat))
  batch_ids : List Variant
  na_rows : List Variant
  main_rows : List Variant

/-- Empty accumulators (lines 418-420). -/
def init_vep_state : VepState :=
  { batch_ref_seqs := [], batch_alt_seqs := [], batch_ids := [],
    na_rows := [], main_rows := [] }

/-- Call to `handle_ref_alt_predictions` followed by clearing the batch
lists (lines 443-448): each buffered id becomes one main-output row. -/
def flush_batch (st : VepState) : VepState :=
  { st with main_rows := st.main_rows ++ st.batch_ids,
            batch_ref_seqs := [], batch_alt_seqs := [], batch_ids := [] }

/-- Body of the `for (chrom, pos, name, ref, alt) in variants` loop
(lines 421-448).  When the window is out of bounds the ids are routed to
`handle_NA` — and, the loop body having no `continue`, processing FALLS
THROUGH to the window fetch, the length assertion (line 431, modelled as
`Except.error`), alt splicing and batch accumulation. -/
def process_variant (g : GenomeM) (sequence_length batch_size : Nat)
    (st : VepState) (v : Variant) : Except Unit VepState :=
  let (chrom, pos, name, ref, alt) := v
  let start := pos - (start_radius sequence_length : Int)
  let endp := pos + (end_radius sequence_length : Int)
  let st1 :=
    if ¬ (g.inBounds chrom start endp) then
      { st with na_rows := st.na_rows ++ [(chrom, pos, name, ref, alt)] }
    else st
  let reference_sequence := g.get chrom start endp
  if reference_sequence.length = sequence_length then
    let ref_encoding := sequence_to_encoding reference_sequence
    let all_alts := alt.splitOn ','
    (process_alts g sequence_length (start_radius sequence_length) chrom ref
        all_alts start endp reference_sequence).bind
      (fun alt_encodings =>
        let st2 := { st1 with
          batch_ref_seqs :=
            st1.batch_ref_seqs ++ all_alts.map (fun _ => ref_encoding),
          batch_ids :=
            st1.batch_ids ++ all_alts.map (fun a => (chrom, pos, name, ref, a)),
          batch_alt_seqs := st1.batch_alt_seqs ++ alt_encodings }
        if batch_size ≤ st2.batch_ref_seqs.length then .ok (flush_batch st2)
        else .ok st2)
  else .error ()

/-- The loop of `AnalyzeSequences.variant_effect_prediction` (lines
418-455) over already-parsed variants, with the final partial-batch
flush. -/
def variant_effect_prediction_loop (g : GenomeM)
    (sequence_length batch_size : Nat) (variants : List Variant) :
    Except Unit VepState := do
  let st ← variants.foldlM (process_variant g sequence_length batch_size)
    init_vep_state
  if st.batch_ref_seqs.isEmpty then pure st else pure (flush_batch st)

/-- A sequence provider over a single 10-base chromosome that answers
every read with a full-length run of 'A's (even out of bounds). -/
def g_lenient : GenomeM :=
  { inBounds := fun _ s e => decide (0 ≤ s ∧ e ≤ 10),
    get := fun _ s e => List.replicate (e - s).toNat 'A' }

/-- A sequence provider over a single 10-base chromosome that clamps
every read to the chromosome, so out-of-bounds reads come back short. -/
def g_strict : GenomeM :=
  { inBounds := fun _ s e => decide (0 ≤ s ∧ e ≤ 10),
    get := fun _ s e => List.replicate ((min e 10 - max s 0).toNat) 'A' }

/-- A sequence provider over a single 4-base chromosome that clamps
every read to the chromosome. -/
def g_chrom4 : GenomeM :=
  { inBounds := fun _ s e => decide (0 ≤ s ∧ e ≤ 4),
    get := fun _ s e => List.replicate ((min e 4 - max s 0).toNat) 'A' }

/-- An out-of-bounds variant: window `[-2, 2)` for `pos = 0` and
`sequence_length = 4`. -/
def vcf_oob_variant : Variant :=
  (String.toList "chr1", 0, String.toList "rs1", String.toList "A",
    String.toList "T")

/-- Python float losses; `float("inf")` (model_train.py line 139) is `⊤`. -/
abbrev Loss := WithTop ℚ

/-- Contents of the checkpoint dict saved by `_save_checkpoint`
(model_train.py lines 215-220 and 227-232): step, architecture name,
model `state_dict`, running `min_loss`, optimizer `state_dict`. -/
structure Checkpoint (M O : Type) where
  step : Nat
  arch : String
  state_dict : M
  min_loss : Loss
  optimizer : O

/-- Loop configuration of `ModelController`: `max_steps`,
`nth_step_report_stats` and `nth_step_save_checkpoint`. -/
structure TrainConfig where
  max_steps : Nat
  report_interval : Nat
  ckpt_interval : Nat

/-- The opaque collaborators of `ModelController.train_and_validate`:
`M` model parameters, `O` optimizer internal state, `R` sampler state,
`S` state of the `ReduceLROnPlateau` scheduler (created fresh at line
196 with `sched_init`).  `train` is one `self.train()` call (sample,
forward, backward, optimizer step; returns the training loss);
`validate` evaluates the fixed held-out set; `roc_auc` is
`valid_scores["roc_auc"]` (`none` when the metric is unavailable);
`sched_step` is `scheduler.step(metric)`, which may adjust the learning
rate inside the optimizer state. -/
structure TrainWorld (M O R S : Type) where
  arch : String
  train : M → O → R → M × O × R × ℚ
  validate : M → ℚ
  roc_auc : M → Option ℚ
  sched_init : S
  sched_step : S → O → ℚ → S × O

/-- Mutable state carried by the training loop, plus the observable
histories: `executed` records each step for which `self.train()` ran,
`saved` each checkpoint emission (with its `is_best` flag) in order. -/
structure LoopState (M O R S : Type) where
  model : M
  opt : O
  sampler : R
  sched : S
  min_loss : Loss
  saved : List (Checkpoint M O × Bool)
  executed : List Nat
  training_losses : List ℚ
  validation_losses : List ℚ

/-- One iteration of the `for step in range(...)` loop of
`train_and_validate` (model_train.py lines 199-232): train; if
`step % nth_step_report_stats == 0` validate, append the training loss a
second time (line 207), step the scheduler on the rounded
`ceil(roc_auc*1000)/1000` metric when truthy, update `min_loss`, and save
a checkpoint with `is_best`; if `step % nth_step_save_checkpoint == 0`
save a checkpoint unconditionally. -/
def controller_step {M O R S : Type} (w : TrainWorld M O R S)
    (cfg : TrainConfig) (st : LoopState M O R S) (step : Nat) :
    LoopState M O R S :=
  let (m1, o1, r1, train_loss) := w.train st.model st.opt st.sampler
  let st1 := { st with
               model := m1, opt := o1, sampler := r1,
               executed := st.executed ++ [step],
               training_losses := st.training_losses ++ [train_loss] }
  let st2 :=
    if step % cfg.report_interval = 0 then
      let validation_loss := w.validate st1.model
      let st2a := { st1 with
                    training_losses := st1.training_losses ++ [train_loss],
                    validation_losses :=
                      st1.validation_losses ++ [validation_loss] }
      let so :=
        match w.roc_auc st2a.model with
        | none => (st2a.sched, st2a.opt)
        | some x =>
            if x = 0 then (st2a.sched, st2a.opt)
            else w.sched_step st2a.sched st2a.opt ((⌈x * 1000⌉ : ℚ) / 1000)
      let is_best : Bool := decide ((validation_loss : Loss) < st2a.min_loss)
      let new_min := min (validation_loss : Loss) st2a.min_loss
      { st2a with
        sched := so.1, opt := so.2, min_loss := new_min,
        saved := st2a.saved
          ++ [(({ step := step, arch := w.arch, state_dict := st2a.model,
                  min_loss := new_min, optimizer := so.2 } : Checkpoint M O),
               is_best)] }
    else st1
  if step % cfg.ckpt_interval = 0 then
    { st2 with
      saved := st2.saved
        ++ [(({ step := step, arch := w.arch, state_dict := st2.model,
                min_loss := st2.min_loss, optimizer := st2.opt } :
                  Checkpoint M O), false)] }
  else st2

/-- The `for step in range(start, max_steps)` loop, by remaining-step
count. -/
def train_loop {M O R S : Type} (w : TrainWorld M O R S) (cfg : TrainConfig) :
    LoopState M O R S → Nat → Nat → LoopState M O R S
  | st, _, 0 => st
  | st, step, fuel + 1 =>
      train_loop w cfg (controller_step w cfg st step) (step + 1) fuel

/-- Construction (model_train.py lines 138-148) followed by
`train_and_validate` (lines 190-232).  With `checkpoint_resume` given,
`_start_step`, `_min_loss` and the optimizer state come from the
checkpoint (`optimizer.load_state_dict`); the model parameters are
whatever the caller passed in (the controller does not restore them),
and the loop runs `range(self._start_step, self.max_steps)`. -/
def train_and_validate {M O R S : Type} (w : TrainWorld M O R S)
    (cfg : TrainConfig) (resume : Option (Checkpoint M O))
    (init_model : M) (init_opt : O) (init_sampler : R) : LoopState M O R S :=
  let start_step := match resume with | none => 0 | some cp => cp.step
  let min0 : Loss := match resume with | none => ⊤ | some cp => cp.min_loss
  let opt0 := match resume with | none => init_opt | some cp => cp.optimizer
  train_loop w cfg
    { model := init_model, opt := opt0, sampler := init_sampler,
      sched := w.sched_init, min_loss := min0, saved := [], executed := [],
      training_losses := [], validation_losses := [] }
    start_step (cfg.max_steps - start_step)

/-- A trivial world over unit states with constant losses, used to
instantiate the resumption claims. -/
def w_unit : TrainWorld Unit Unit Unit Unit :=
  { arch := "Model", train := fun _ _ _ => ((), (), (), 1),
    validate := fun _ => 1, roc_auc := fun _ => none,
    sched_init := (), sched_step := fun s o _ => (s, o) }

/-- Configuration with 4 steps, validation every step, checkpoints every
2 steps. -/
def cfg_4 : TrainConfig :=
  { max_steps := 4, report_interval := 1, ckpt_interval := 2 }

/-- The checkpoint emitted at step 2 of an uninterrupted `cfg_4` run. -/
def cp_2 : Checkpoint Unit Unit :=
  { step := 2, arch := "Model", state_dict := (), min_loss := (1 : ℚ),
    optimizer := () }

example : (in_silico_mutagenesis_sequences ['A', 'C'] 1 BASES_ARR).length = 6 := by decide

example : in_silico_mutagenesis_sequences ['A', 'C'] 1 BASES_ARR =
    [[(0, 'C')], [(0, 'G')], [(0, 'T')], [(1, 'A')], [(1, 'G')], [(1, 'T')]] := by decide

example : (in_silico_mutagenesis_sequences ['A', 'C', 'G'] 2 BASES_ARR).length = 27 := by
  decide

example : (in_silico_mutagenesis_enumerated ['A', 'C', 'G'] 2).length = 9 := by decide

theorem length_combinations {α : Type} (k : Nat) (l : List α) :
    (combinations k l).length = Nat.choose l.length k := by
  induction l generalizing k with
  | nil =>
      cases k with
      | zero => rfl
      | succ k => rfl
  | cons x xs ih =>
      cases k with
      | zero => rfl
      | succ k =>
          simp only [combinations, List.length_append, List.length_map, ih,
            List.length_cons, Nat.choose_succ_succ']

theorem sublist_of_mem_combinations {α : Type} {k : Nat} {l c : List α}
    (h : c ∈ combinations k l) : c.Sublist l := by
  induction l generalizing k c with
  | nil =>
      cases k with
      | zero => simp only [combinations, List.mem_singleton] at h; simp [h]
      | succ k => simp [combinations] at h
  | cons x xs ih =>
      cases k with
      | zero =>
          simp only [combinations, List.mem_singleton] at h
          simp [h]
      | succ k =>
          simp only [combinations, List.mem_append, List.mem_map] at h
          rcases h with ⟨c', hc', rfl⟩ | h
          · exact (ih hc').cons₂ x
          · exact (ih h).cons x

theorem length_of_mem_combinations {α : Type} {k : Nat} {l c : List α}
    (h : c ∈ combinations k l) : c.length = k := by
  induction l generalizing k c with
  | nil =>
      cases k with
      | zero => simp only [combinations, List.mem_singleton] at h; simp [h]
      | succ k => simp [combinations] at h
  | cons x xs ih =>
      cases k with
      | zero =>
          simp only [combinations, List.mem_singleton] at h
          simp [h]
      | succ k =>
          simp only [combinations, List.mem_append, List.mem_map] at h
          rcases h with ⟨c', hc', rfl⟩ | h
          · simp [ih hc']
          · exact ih h

theorem sum_map_const_of_mem {α : Type} {l : List α} {g : α → Nat} {K : Nat}
    (h : ∀ c ∈ l, g c = K) : (l.map g).sum = l.length * K := by
  induction l with
  | nil => simp
  | cons x xs ih =>
      simp only [List.map_cons, List.sum_cons, List.length_cons,
        h x (List.mem_cons_self x xs), ih (fun c hc => h c (List.mem_cons_of_mem x hc))]
      ring

theorem length_product_lists {α : Type} (ls : List (List α)) :
    (product_lists ls).length = (ls.map List.length).prod := by
  induction ls with
  | nil => rfl
  | cons l ls ih =>
      simp only [product_lists, List.length_flatMap, List.map_cons, List.prod_cons]
      rw [sum_map_const_of_mem (K := (product_lists ls).length)
        (fun c _ => by simp), ih]

theorem forall₂_of_mem_product_lists {α : Type} {ls : List (List α)} {m : List α}
    (h : m ∈ product_lists ls) : List.Forall₂ (· ∈ ·) m ls := by
  induction ls generalizing m with
  | nil =>
      simp only [product_lists, List.mem_singleton] at h
      simp [h]
  | cons l ls ih =>
      simp only [product_lists, List.mem_flatMap, List.mem_map] at h
      rcases h with ⟨x, hx, m', hm', rfl⟩
      exact List.Forall₂.cons hx (ih hm')

theorem mem_zip_of_forall₂_map {α β : Type} {f : α → List β} :
    ∀ {ind : List α} {m : List β}, List.Forall₂ (· ∈ ·) m (ind.map f) →
      ∀ p ∈ ind.zip m, p.2 ∈ f p.1 := by
  intro ind
  induction ind with
  | nil => intro m _ p hp; simp at hp
  | cons i ind ih =>
      intro m hm p hp
      rw [List.map_cons] at hm
      cases hm with
      | cons hb hrest =>
          rw [List.zip_cons_cons, List.mem_cons] at hp
          rcases hp with rfl | hp
          · exact hb
          · exact ih hrest p hp

theorem length_filter_ne {α : Type} [DecidableEq α] {l : List α} {a : α}
    (hnd : l.Nodup) (ha : a ∈ l) :
    (l.filter (fun b => b ≠ a)).length = l.length - 1 := by
  induction l with
  | nil => simp at ha
  | cons x xs ih =>
      rcases List.mem_cons.mp ha with rfl | ha'
      · have hnotin : a ∉ xs := (List.nodup_cons.mp hnd).1
        have hfx : xs.filter (fun b => b ≠ a) = xs :=
          List.filter_eq_self.mpr (fun b hb => by
            simp only [ne_eq, decide_eq_true_eq]
            exact fun hba => hnotin (hba ▸ hb))
        rw [List.filter_cons, if_neg (by simp), hfx]
        simp
      · have hxa : x ≠ a := fun hxa => (List.nodup_cons.mp hnd).1 (hxa ▸ ha')
        have hlen : 1 ≤ xs.length := List.length_pos.mpr (List.ne_nil_of_mem ha')
        have hrec := ih (List.nodup_cons.mp hnd).2 ha'
        rw [List.filter_cons, if_pos (by simp [hxa])]
        simp only [List.length_cons, hrec]
        omega

/-- C4: for a sequence of length `L` over a duplicate-free alphabet of size
`A` and any `1 ≤ k ≤ L`, `in_silico_mutagenesis_sequences` produces exactly
`C(L,k) * (A-1)^k` mutation specs; in every spec the mutated positions are
strictly ascending (combinations without repetition in ascending-index
order) and every replacement base is an alphabet symbol different from the
reference base at its position.  The enumeration is a pure function of its
arguments, hence deterministic across runs. -/
theorem in_silico_mutagenesis_sequences_count {α : Type} [DecidableEq α]
    (sequence bases_arr : List α) (k : Nat)
    (hseq : ∀ s ∈ sequence, s ∈ bases_arr) (hnd : bases_arr.Nodup)
    (hk1 : 1 ≤ k) (hkL : k ≤ sequence.length) :
    (in_silico_mutagenesis_sequences sequence k bases_arr).length
      = Nat.choose sequence.length k * (bases_arr.length - 1) ^ k
    ∧ ∀ spec ∈ in_silico_mutagenesis_sequences sequence k bases_arr,
        List.Chain' (· < ·) (spec.map Prod.fst)
        ∧ ∀ pb ∈ spec, pb.1 < sequence.length ∧ pb.2 ∈ bases_arr
            ∧ sequence[pb.1]? ≠ some pb.2 := by
  have hgetD : ∀ i, i < sequence.length →
      ∃ ref, sequence[i]? = some ref ∧
        (sequence.map (fun r => bases_arr.filter (fun b => b ≠ r))).getD i []
          = bases_arr.filter (fun b => b ≠ ref) := by
    intro i hi
    refine ⟨sequence[i], List.getElem?_eq_getElem hi, ?_⟩
    rw [List.getD_eq_getElem _ _ (by simpa using hi), List.getElem_map]
  have haltlen : ∀ i, i < sequence.length →
      ((sequence.map (fun r => bases_arr.filter (fun b => b ≠ r))).getD i []).length
        = bases_arr.length - 1 := by
    intro i hi
    obtain ⟨ref, href, hfe⟩ := hgetD i hi
    rw [hfe]
    exact length_filter_ne hnd (hseq _ (List.getElem?_mem href))
  constructor
  · simp only [in_silico_mutagenesis_sequences, List.length_flatMap]
    rw [sum_map_const_of_mem (K := (bases_arr.length - 1) ^ k), length_combinations,
      List.length_range]
    intro ind hind
    have hk' : ind.length = k := length_of_mem_combinations hind
    have hmem : ∀ i ∈ ind, i < sequence.length := fun i hi =>
      List.mem_range.mp ((sublist_of_mem_combinations hind).subset hi)
    simp only [Function.comp_apply, List.length_map, length_product_lists,
      List.map_map]
    have hconst : (ind.map
        (List.length ∘ fun i =>
          (sequence.map (fun r => bases_arr.filter (fun b => b ≠ r))).getD i []))
        = ind.map (fun _ => bases_arr.length - 1) :=
      List.map_congr_left (fun i hi => haltlen i (hmem i hi))
    rw [hconst, List.map_const', List.prod_replicate, hk']
  · intro spec hspec
    simp only [in_silico_mutagenesis_sequences, List.mem_flatMap, List.mem_map]
      at hspec
    obtain ⟨ind, hind, m, hm, rfl⟩ := hspec
    have hsub := sublist_of_mem_combinations hind
    have hmem : ∀ i ∈ ind, i < sequence.length := fun i hi =>
      List.mem_range.mp (hsub.subset hi)
    have hf₂ := forall₂_of_mem_product_lists hm
    have hlen : ind.length = m.length := by simpa using hf₂.length_eq.symm
    constructor
    · rw [List.map_fst_zip _ _ (le_of_eq hlen)]
      exact (List.Pairwise.sublist hsub (List.pairwise_lt_range _)).chain'
    · intro pb hpb
      have hz := mem_zip_of_forall₂_map hf₂ pb hpb
      have h1 : pb.1 ∈ ind := (List.of_mem_zip hpb).1
      have hi : pb.1 < sequence.length := hmem _ h1
      obtain ⟨ref, href, hfe⟩ := hgetD pb.1 hi
      rw [hfe, List.mem_filter] at hz
      refine ⟨hi, hz.1, ?_⟩
      rw [href]
      intro hcontra
      have : ref = pb.2 := by injection hcontra
      simpa [this] using hz.2

/-- Witness for C4: instantiation at the DNA alphabet, the sequence "AC"
and `k = 1`: 2 positions, 3 alternatives each, 6 specs. -/
theorem in_silico_mutagenesis_sequences_count_witness :
    ((∀ s ∈ ['A', 'C'], s ∈ BASES_ARR) ∧ BASES_ARR.Nodup
        ∧ 1 ≤ 1 ∧ 1 ≤ (['A', 'C'] : List Char).length)
    ∧ (in_silico_mutagenesis_sequences ['A', 'C'] 1 BASES_ARR).length
        = Nat.choose (['A', 'C'] : List Char).length 1 * (BASES_ARR.length - 1) ^ 1 :=
  ⟨⟨by decide, by decide, by decide, by decide⟩,
    (in_silico_mutagenesis_sequences_count ['A', 'C'] BASES_ARR 1
      (by decide) (by decide) (by decide) (by decide)).1⟩

/-- C5: `AnalyzeSequences.in_silico_mutagenesis` does not enumerate the
requested `mutate_n_bases = k` mutations: line 314 passes the literal `1`.
On the length-3 sequence "ACG" with `mutate_n_bases = 2` the method
enumerates the 9 single-base specs (each spec of length 1) instead of the
`C(3,2) * 3^2 = 27` two-base specs the claim requires. -/
theorem in_silico_mutagenesis_ignores_mutate_n_bases :
    (in_silico_mutagenesis_enumerated ['A', 'C', 'G'] 2).length = 9
    ∧ (in_silico_mutagenesis_sequences ['A', 'C', 'G'] 2 BASES_ARR).length = 27
    ∧ ∀ spec ∈ in_silico_mutagenesis_enumerated ['A', 'C', 'G'] 2,
        spec.length = 1 := by decide

theorem base_to_index_lt {c : Char} {i : Nat} (h : BASE_TO_INDEX c = some i) :
    i < 4 := by
  unfold BASE_TO_INDEX at h
  by_cases h1 : c = 'A' <;> by_cases h2 : c = 'C' <;> by_cases h3 : c = 'G'
    <;> by_cases h4 : c = 'T' <;> simp_all <;> omega

theorem getD_set_self {α : Type} (s : List α) (m : Nat) (x d : α)
    (h : m < s.length) : (s.set m x).getD m d = x := by
  rw [List.getD_eq_getElem?_getD, List.getElem?_set_self (by simpa using h)]
  rfl

theorem getD_set_ne {α : Type} (s : List α) {j m : Nat} (x d : α) (h : j ≠ m) :
    (s.set m x).getD j d = s.getD j d := by
  rw [List.getD_eq_getElem?_getD, List.getD_eq_getElem?_getD,
    List.getElem?_set_ne (fun hmj => h (hmj.symm))]

theorem set_getD_self {α : Type} :
    ∀ (s : List α) (m : Nat) (d : α), m < s.length → s.set m (s.getD m d) = s := by
  intro s
  induction s with
  | nil => intro m d hm; simp at hm
  | cons x xs ih =>
      intro m d hm
      cases m with
      | zero => rfl
      | succ m =>
          simp only [List.set_cons_succ, List.getD_cons_succ]
          rw [ih m d (by simpa using hm)]

theorem mutate_sequence_go_invariant (b2i : Char → Option Nat)
    (P : List Nat → Prop)
    (hPlen : ∀ row, P row → row.length = 4)
    (hPset : ∀ (row : List Nat) (i : Nat), P row → i < 4 →
      P ((row.map (fun _ => 0)).set i 1)) :
    ∀ (info : List (Nat × Char)) (m : List (List Nat)),
      (∀ row ∈ m, P row) →
      (∀ pa ∈ info, pa.1 < m.length ∧ ∃ i, b2i pa.2 = some i ∧ i < 4) →
      ∃ out, mutate_sequence_go b2i m info = .ok out
        ∧ out.length = m.length ∧ ∀ row ∈ out, P row := by
  intro info
  induction info with
  | nil => intro m hm _; exact ⟨m, rfl, rfl, hm⟩
  | cons pa rest ih =>
      intro m hm hinfo
      obtain ⟨hp, i, hb, hi⟩ := hinfo pa (List.mem_cons_self pa rest)
      have hrow : m.getD pa.1 [] ∈ m := by
        rw [List.getD_eq_getElem _ _ hp]
        exact List.getElem_mem hp
      have hrl : (m.getD pa.1 []).length = 4 := hPlen _ (hm _ hrow)
      have hcond : pa.1 < m.length ∧ i < (m.getD pa.1 []).length := ⟨hp, by omega⟩
      have hstep : ∀ row ∈ set_row m pa.1 i, P row := by
        intro row hrme
        rcases List.mem_or_eq_of_mem_set hrme with h | h
        · exact hm _ h
        · exact h ▸ hPset _ _ (hm _ hrow) hi
      have hlen : (set_row m pa.1 i).length = m.length := by simp [set_row]
      obtain ⟨out, hout, holen, hoP⟩ := ih (set_row m pa.1 i) hstep
        (fun qb hqb => by
          obtain ⟨h1, j, hj⟩ := hinfo qb (List.mem_cons_of_mem _ hqb)
          exact ⟨by omega, j, hj⟩)
      refine ⟨out, ?_, by omega, hoP⟩
      simp only [mutate_sequence_go, hb]
      rw [if_pos hcond]
      exact hout

/-- C9: for an N-by-4 input encoding all of whose rows are one-hot, and a
mutation list whose positions are in range and whose replacement bases are
keys of the base-to-index dictionary, `mutate_sequence` succeeds and every
row of the returned encoding is one-hot (exactly one 1, rest 0). -/
theorem mutate_sequence_one_hot (enc : List (List Nat)) (info : List (Nat × Char))
    (henc : ∀ row ∈ enc, row.length = 4 ∧ one_hot_row row)
    (hinfo : ∀ pa ∈ info, pa.1 < enc.length ∧ (BASE_TO_INDEX pa.2).isSome) :
    ∃ out, mutate_sequence enc info BASE_TO_INDEX = .ok out
      ∧ ∀ row ∈ out, one_hot_row row := by
  have hmain := mutate_sequence_go_invariant BASE_TO_INDEX
    (fun row => row.length = 4 ∧ one_hot_row row)
    (fun row h => h.1)
    (fun row i h hi => by
      constructor
      · simp [h.1]
      · have hmap : row.map (fun _ => 0) = List.replicate 4 (0 : Nat) := by
          rw [List.map_const', h.1]
        rw [hmap]
        interval_cases i <;> decide)
    info enc henc
    (fun pa hpa => by
      obtain ⟨i, hb⟩ := Option.isSome_iff_exists.mp (hinfo pa hpa).2
      exact ⟨(hinfo pa hpa).1, i, hb, base_to_index_lt hb⟩)
  obtain ⟨out, h1, _, h3⟩ := hmain
  exact ⟨out, h1, fun row hr => (h3 row hr).2⟩

/-- Witness for C9: a 2-by-4 one-hot encoding mutated at position 0 to 'T'. -/
theorem mutate_sequence_one_hot_witness :
    ((∀ row ∈ [[1, 0, 0, 0], [0, 1, 0, 0]], row.length = 4 ∧ one_hot_row row)
      ∧ (∀ pa ∈ [((0 : Nat), 'T')],
          pa.1 < ([[1, 0, 0, 0], [0, 1, 0, 0]] : List (List Nat)).length
          ∧ (BASE_TO_INDEX pa.2).isSome))
    ∧ ∃ out, mutate_sequence [[1, 0, 0, 0], [0, 1, 0, 0]] [(0, 'T')] BASE_TO_INDEX
        = .ok out ∧ ∀ row ∈ out, one_hot_row row :=
  ⟨⟨by decide, by decide⟩,
    mutate_sequence_one_hot [[1, 0, 0, 0], [0, 1, 0, 0]] [(0, 'T')]
      (by decide) (by decide)⟩

theorem prog_go_eq (b2i : Char → Option Nat) :
    ∀ (rest : List (Nat × Char)) (s : Store) (m : Nat), m < s.length →
      mutate_sequence_prog_go b2i s m rest
        = (mutate_sequence_go b2i (List.getD s m []) rest).map
            (fun out => List.set s m out) := by
  intro rest
  induction rest with
  | nil =>
      intro s m hm
      simp only [mutate_sequence_prog_go, mutate_sequence_go, Except.map]
      rw [set_getD_self s m [] hm]
  | cons pa rest ih =>
      intro s m hm
      cases hb : b2i pa.2 with
      | none => simp [mutate_sequence_prog_go, mutate_sequence_go, hb, Except.map]
      | some rb =>
          by_cases hc : pa.1 < (List.getD s m []).length
              ∧ rb < ((List.getD s m []).getD pa.1 []).length
          · simp only [mutate_sequence_prog_go, mutate_sequence_go, hb]
            rw [if_pos hc, if_pos hc]
            rw [ih (store_set_row s m pa.1 rb) m (by simp [store_set_row, hm])]
            rw [store_set_row, getD_set_self _ _ _ _ hm]
            have hfun : (fun out => List.set
                  (List.set s m (set_row (List.getD s m []) pa.1 rb)) m out)
                = (fun out => List.set s m out) :=
              funext (fun out => List.set_set _ _ _ _)
            rw [hfun]
          · simp only [mutate_sequence_prog_go, mutate_sequence_go, hb]
            rw [if_neg hc, if_neg hc]
            rfl

/-- C10: `mutate_sequence` is non-destructive.  At the store level,
`np.copy` allocates a fresh slot and every write of the mutation loop
targets that slot: the call succeeds, returns a slot distinct from the
input's, the input slot's array is unchanged, and the fresh slot holds
exactly the value the pure `mutate_sequence` computes from the input. -/
theorem mutate_sequence_nondestructive (s : Store) (enc : Nat)
    (info : List (Nat × Char))
    (henc : enc < s.length)
    (hrows : ∀ row ∈ List.getD s enc [], row.length = 4)
    (hinfo : ∀ pa ∈ info, pa.1 < (List.getD s enc []).length
      ∧ (BASE_TO_INDEX pa.2).isSome) :
    ∃ s2 m, mutate_sequence_prog s enc info BASE_TO_INDEX = .ok (s2, m)
      ∧ m ≠ enc
      ∧ List.getD s2 enc [] = List.getD s enc []
      ∧ mutate_sequence (List.getD s enc []) info BASE_TO_INDEX
          = .ok (List.getD s2 m []) := by
  have hm : s.length < (s ++ [List.getD s enc []]).length := by simp
  have hgm : List.getD (s ++ [List.getD s enc []]) s.length [] = List.getD s enc [] := by
    rw [List.getD_eq_getElem?_getD, List.getElem?_concat_length]
    rfl
  obtain ⟨out, hok, _, _⟩ := mutate_sequence_go_invariant BASE_TO_INDEX
    (fun row => row.length = 4) (fun _ h => h)
    (fun row i h hi => by simp [h])
    info (List.getD s enc []) hrows
    (fun pa hpa => by
      obtain ⟨i, hb⟩ := Option.isSome_iff_exists.mp (hinfo pa hpa).2
      exact ⟨(hinfo pa hpa).1, i, hb, base_to_index_lt hb⟩)
  refine ⟨List.set (s ++ [List.getD s enc []]) s.length out, s.length, ?_,
    by omega, ?_, ?_⟩
  · show (mutate_sequence_prog_go BASE_TO_INDEX
        (s ++ [List.getD s enc []]) s.length info).map (fun s2 => (s2, s.length))
        = _
    rw [prog_go_eq BASE_TO_INDEX info (s ++ [List.getD s enc []]) s.length hm,
      hgm, hok]
    rfl
  · rw [getD_set_ne _ _ _ (by omega), List.getD_eq_getElem?_getD,
      List.getElem?_append_left henc, ← List.getD_eq_getElem?_getD]
  · rw [getD_set_self _ _ _ _ hm]
    exact hok

/-- Witness for C10: a one-array store mutated at position 0 to 'C'. -/
theorem mutate_sequence_nondestructive_witness :
    ((0 : Nat) < ([[[1, 0, 0, 0]]] : Store).length
      ∧ (∀ row ∈ List.getD ([[[1, 0, 0, 0]]] : Store) 0 [], row.length = 4)
      ∧ (∀ pa ∈ [((0 : Nat), 'C')],
          pa.1 < (List.getD ([[[1, 0, 0, 0]]] : Store) 0 []).length
          ∧ (BASE_TO_INDEX pa.2).isSome))
    ∧ ∃ s2 m, mutate_sequence_prog [[[1, 0, 0, 0]]] 0 [(0, 'C')] BASE_TO_INDEX
        = .ok (s2, m)
      ∧ m ≠ 0
      ∧ List.getD s2 0 [] = List.getD ([[[1, 0, 0, 0]]] : Store) 0 []
      ∧ mutate_sequence (List.getD ([[[1, 0, 0, 0]]] : Store) 0 [])
          [(0, 'C')] BASE_TO_INDEX = .ok (List.getD s2 m []) :=
  ⟨⟨by decide, by decide, by decide⟩,
    mutate_sequence_nondestructive [[[1, 0, 0, 0]]] 0 [(0, 'C')]
      (by decide) (by decide) (by decide)⟩

/-- C6: `read_vcf_file` does fail fast on a malformed header, but on a
conforming file it does not return one tuple per data row: the header
loop breaks AT the `#CHROM` line and line 163 restarts from `lines[index:]`,
so the header line itself is re-processed as a data row and
`int(cols[1])`, i.e. `int("POS")`, raises `ValueError`.  A file with the
valid header `#CHROM POS ID REF ALT` and the single data row
`chr1 100 rs1 A T` therefore crashes instead of returning the variant.
Only a header-less file takes the claimed data path (last conjunct:
short rows skipped, extra columns ignored). -/
theorem read_vcf_file_reprocesses_header :
    vcf_header_scan [String.toList "#CHROM\tPOS\tID\tREF\tALT",
        String.toList "chr1\t100\trs1\tA\tT"] 0 = .ok 0
    ∧ read_vcf_file [String.toList "#CHROM\tPOS\tID\tREF\tALT",
        String.toList "chr1\t100\trs1\tA\tT"] = .error .intParse
    ∧ read_vcf_file [String.toList "#CHROM\tPOS\tID\tREF\tQUAL",
        String.toList "chr1\t100\trs1\tA\tT"] = .error .badHeader
    ∧ read_vcf_file [String.toList "chr1\t100\trs1\tA\tT\textra",
        String.toList "short\trow"]
      = .ok [(String.toList "chr1", 100, String.toList "rs1",
          String.toList "A", String.toList "T")] := by
  refine ⟨by rfl, by rfl, by rfl, by rfl⟩

theorem handle_batch_first (b ids : List Nat) :
    handle_batch_predictions (init_handler_state (ρ := Nat) (ι := Nat)) b ids
      = { results := [b], samples := [ids], NA_samples := [], main_file := [],
          NA_file := [], closed := false } := by
  simp [handle_batch_predictions, init_handler_state]

/-- C7 counterexample: the auto-flush threshold does not count accumulated
rows.  A single batch of 200001 rows exceeds 200000 accumulated rows, yet
no flush happens: `len(self._results)` is 1 — the buffer still holds the
batch and nothing was written to file. -/
theorem handle_batch_predictions_rows_threshold_false :
    ((c7_probe_state.results.map List.length).sum = 200001
      ∧ 200000 < (c7_probe_state.results.map List.length).sum)
    ∧ c7_probe_state.results ≠ []
    ∧ c7_probe_state.main_file = [] := by
  have hprobe : c7_probe_state
      = { results := [List.replicate 200001 0],
          samples := [List.replicate 200001 0], NA_samples := [],
          main_file := [], NA_file := [], closed := false } :=
    handle_batch_first _ _
  rw [hprobe]
  refine ⟨⟨?_, ?_⟩, ?_, ?_⟩
  · rw [List.map_cons, List.length_replicate, List.map_nil, List.sum_cons,
      List.sum_nil]
    omega
  · rw [List.map_cons, List.length_replicate, List.map_nil, List.sum_cons,
      List.sum_nil]
    omega
  · exact List.cons_ne_nil _ _
  · rfl

/-- C7 amended: `handle_batch_predictions` appends the batch to the buffer
and auto-flushes exactly when the number of buffered BATCHES (not rows)
exceeds 200000; under that reading the batch count stays bounded by
200000 across calls. -/
theorem handle_batch_predictions_spec {ρ ι : Type} (st : HandlerState ρ ι)
    (batch : List ρ) (ids : List ι) :
    ((handle_batch_predictions st batch ids).results = []
      ↔ 200000 < st.results.length + 1)
    ∧ (¬ 200000 < st.results.length + 1 →
        (handle_batch_predictions st batch ids).results = st.results ++ [batch]
        ∧ (handle_batch_predictions st batch ids).main_file = st.main_file)
    ∧ (200000 < st.results.length + 1 →
        (handle_batch_predictions st batch ids).main_file
          = st.main_file ++ (st.samples ++ [ids]).flatten.zip
              ((st.results ++ [batch]).flatten))
    ∧ (st.results.length ≤ 200000 →
        (handle_batch_predictions st batch ids).results.length ≤ 200000) := by
  by_cases hc : 200000 < st.results.length + 1
  · refine ⟨?_, fun h => absurd hc h, fun _ => ?_, fun _ => ?_⟩ <;>
      by_cases hna : st.NA_samples = [] <;>
        simp [handle_batch_predictions, write_to_file, hc, hna]
  · refine ⟨?_, fun _ => ?_, fun h => absurd h hc, fun _ => ?_⟩ <;>
      simp [handle_batch_predictions, hc]
    omega

/-- Witness for C7 amended: a first batch appended to an empty handler is
buffered without a flush. -/
theorem handle_batch_predictions_spec_witness :
    (¬ 200000 < (init_handler_state (ρ := Nat) (ι := Nat)).results.length + 1)
    ∧ (handle_batch_predictions (init_handler_state (ρ := Nat) (ι := Nat))
        [0] [1]).results = [[0]] :=
  ⟨by simp [init_handler_state], by
    have h := ((handle_batch_predictions_spec
        (init_handler_state (ρ := Nat) (ι := Nat)) [0] [1]).2.1
      (by simp [init_handler_state]))
    simpa [init_handler_state] using h.1⟩

/-- C8 counterexample: calling `write_to_file` with an empty buffer and
`close = false` nevertheless closes the output handle (lines 114-116
close unconditionally in the empty-buffer branch), so "closes iff final"
is false. -/
theorem write_to_file_closes_on_empty :
    (write_to_file (init_handler_state (ρ := Nat) (ι := Nat)) false).closed = true
    ∧ (init_handler_state (ρ := Nat) (ι := Nat)).closed = false := by
  exact ⟨rfl, rfl⟩

/-- C8 amended: with an empty results buffer `write_to_file` writes no
data rows and closes the handle UNCONDITIONALLY (regardless of `close`);
with a non-empty buffer it writes the buffered rows, clears the buffers,
and closes the handle iff `close` is true (or it was already closed). -/
theorem write_to_file_spec {ρ ι : Type} (st : HandlerState ρ ι) (close : Bool) :
    (st.results = [] →
      (write_to_file st close).main_file = st.main_file
      ∧ (write_to_file st close).closed = true)
    ∧ (st.results ≠ [] →
      (write_to_file st close).main_file
        = st.main_file ++ st.samples.flatten.zip st.results.flatten
      ∧ (write_to_file st close).results = []
      ∧ (write_to_file st close).samples = []
      ∧ (write_to_file st close).closed = (st.closed || close)) := by
  by_cases hr : st.results = [] <;>
    by_cases hna : st.NA_samples = [] <;>
      simp [write_to_file, hr, hna]

/-- Witness for C8 amended: a handler holding one buffered batch flushes
it to file and stays open when `close = false`. -/
theorem write_to_file_spec_witness :
    (([[(5 : Nat)]] : List (List Nat)) ≠ [])
    ∧ (write_to_file
        ({ results := [[5]], samples := [[7]], NA_samples := [],
           main_file := [], NA_file := [], closed := false } :
          HandlerState Nat Nat) false).main_file = [(7, 5)]
    ∧ (write_to_file
        ({ results := [[5]], samples := [[7]], NA_samples := [],
           main_file := [], NA_file := [], closed := false } :
          HandlerState Nat Nat) false).closed = false := by
  have h := (write_to_file_spec
      ({ results := [[5]], samples := [[7]], NA_samples := [],
         main_file := [], NA_file := [], closed := false } :
        HandlerState Nat Nat) false).2 (by simp)
  exact ⟨by simp, by simpa using h.1, by simpa using h.2.2.2⟩

/-- C2: an out-of-bounds variant is routed to the NA sink but NOT skipped —
the loop body has no `continue` after `handle_NA` (lines 424-426).  With a
provider that clamps out-of-bounds reads (`g_strict`) the fall-through
window fetch returns a short sequence and the length assertion aborts the
whole run (out-of-bounds IS fatal); with a provider that pads reads
(`g_lenient`) the variant is additionally scored into the main output, so
main rows + NA rows = 2 for a single (variant, alt) pair. -/
theorem variant_effect_oob_not_skipped :
    variant_effect_prediction_loop g_strict 4 1 [vcf_oob_variant] = .error ()
    ∧ variant_effect_prediction_loop g_lenient 4 1 [vcf_oob_variant]
        = .ok { batch_ref_seqs := [], batch_alt_seqs := [], batch_ids := [],
                na_rows := [vcf_oob_variant],
                main_rows := [vcf_oob_variant] } :=
  ⟨rfl, rfl⟩

/-- C3 counterexample: the claim's precondition (the provider returns the
sequence for every requested IN-BOUNDS range) does not make the post-splice
length assertion hold.  Over a 4-base chromosome, the window `[0,4)` is in
bounds (the record is not NA-routed), but deleting one base ("AA" → "A")
makes the forward padding range `[4,5)` out of bounds, so `_process_alts`
prepends the range `[-1,0)` without any bounds check; a provider that
satisfies the precondition may return an empty string there, and the
assertion fails. -/
theorem process_alts_oob_padding_breaks_length :
    (∀ c s e, g_chrom4.inBounds c s e = true →
      (g_chrom4.get c s e).length = (e - s).toNat)
    ∧ g_chrom4.inBounds (String.toList "chr1") 0 4 = true
    ∧ process_one_alt g_chrom4 4 2 (String.toList "chr1") (String.toList "AA")
        (String.toList "A") 0 4 (String.toList "AAAA") = .error () := by
  refine ⟨?_, rfl, rfl⟩
  intro c s e h
  simp only [g_chrom4, decide_eq_true_eq] at h
  simp only [g_chrom4, List.length_replicate]
  omega

/-- C3 amended: the window-length invariant holds under the strengthened
precondition that the provider returns a sequence of the requested length
for EVERY requested coordinate range (in bounds or not — near chromosome
edges the backward-padding range of `_process_alts` can be out of
bounds): for every alt allele the spliced-and-repadded sequence has
length exactly `sequence_length` and the assertion succeeds. -/
theorem process_one_alt_length (g : GenomeM) (sequence_length startR : Nat)
    (chrom ref a reference_sequence : List Char) (start endp : Int)
    (hg : ∀ c s e, s ≤ e → (g.get c s e).length = (e - s).toNat) :
    ∃ out, process_one_alt g sequence_length startR chrom ref a start endp
        reference_sequence = .ok out ∧ out.length = sequence_length := by
  have hlen : ∀ alt0 : List Char,
      (if sequence_length < alt0.length then alt0.take sequence_length
       else if alt0.length < sequence_length then
         if ¬ (g.inBounds chrom endp
            (endp + ((sequence_length : Int) - (alt0.length : Int)))) then
           g.get chrom (start - (sequence_length : Int) + (alt0.length : Int))
             start ++ alt0
         else alt0 ++ g.get chrom endp
            (endp + ((sequence_length : Int) - (alt0.length : Int)))
       else alt0).length = sequence_length := by
    intro alt0
    by_cases h1 : sequence_length < alt0.length
    · simp only [h1, if_true, List.length_take]
      omega
    · by_cases h2 : alt0.length < sequence_length
      · by_cases h3 : g.inBounds chrom endp
            (endp + ((sequence_length : Int) - (alt0.length : Int))) = true
        · rw [if_neg h1, if_pos h2, if_neg (not_not_intro h3),
            List.length_append,
            hg chrom endp (endp + ((sequence_length : Int) - (alt0.length : Int)))
              (by omega)]
          omega
        · rw [if_neg h1, if_pos h2, if_pos h3, List.length_append,
            hg chrom (start - (sequence_length : Int) + (alt0.length : Int)) start
              (by omega)]
          omega
      · simp only [h1, if_false, h2]
        omega
  simp only [process_one_alt]
  rw [if_pos (hlen _)]
  exact ⟨_, rfl, hlen _⟩

/-- Witness for C3 amended: the same deletion near the chromosome edge,
served by a provider that always returns the requested length, splices to
exactly 4 bases. -/
theorem process_one_alt_length_witness :
    (∀ c s e, s ≤ e → (g_lenient.get c s e).length = (e - s).toNat)
    ∧ ∃ out, process_one_alt g_lenient 4 2 (String.toList "chr1")
        (String.toList "AA") (String.toList "A") 0 4 (String.toList "AAAA")
        = .ok out ∧ out.length = 4 :=
  ⟨fun c s e _ => by simp [g_lenient],
    process_one_alt_length g_lenient 4 2 (String.toList "chr1")
      (String.toList "AA") (String.toList "A") (String.toList "AAAA") 0 4
      (fun c s e _ => by simp [g_lenient])⟩

theorem controller_step_executed {M O R S : Type} (w : TrainWorld M O R S)
    (cfg : TrainConfig) (st : LoopState M O R S) (step : Nat) :
    (controller_step w cfg st step).executed = st.executed ++ [step] := by
  rcases hw : w.train st.model st.opt st.sampler with ⟨m1, o1, r1, tl⟩
  simp only [controller_step, hw]
  by_cases hrep : step % cfg.report_interval = 0 <;>
    by_cases hck : step % cfg.ckpt_interval = 0 <;>
      simp [hrep, hck]

theorem train_loop_executed {M O R S : Type} (w : TrainWorld M O R S)
    (cfg : TrainConfig) :
    ∀ (fuel step : Nat) (st : LoopState M O R S),
      (train_loop w cfg st step fuel).executed
        = st.executed ++ List.range' step fuel := by
  intro fuel
  induction fuel with
  | zero => intro step st; simp [train_loop]
  | succ f ih =>
      intro step st
      rw [train_loop, ih (step + 1) (controller_step w cfg st step),
        controller_step_executed, List.range'_succ]
      simp

/-- C1 counterexample: training resumed from the checkpoint written at
step 2 (with `min_loss` 1) under `cfg_4` re-runs step 2 — the loop is
`range(self._start_step, max_steps)` with `_start_step =
checkpoint["step"]` — and re-emits step 2's checkpoints (both the
report-interval one and the unconditional one), instead of continuing at
step 3 without re-emitting step 2's checkpoint as the claim states. -/
theorem train_resume_restarts_at_saved_step :
    (train_and_validate w_unit cfg_4 (some cp_2) () () ()).executed = [2, 3]
    ∧ ((train_and_validate w_unit cfg_4 (some cp_2) () () ()).saved.map
        (fun p => p.1.step)) = [2, 2, 3]
    ∧ 2 ∈ (train_and_validate w_unit cfg_4 (some cp_2) () () ()).executed := by
  refine ⟨by rfl, by rfl, by decide⟩

/-- C1 amended: resuming from a checkpoint with step `S` and min-loss `B`
restores the step counter, best-loss-so-far and optimizer internal state
exactly, and the loop continues AT step `S` (re-running it): the resumed
run executes exactly the steps `S, S+1, ..., max_steps-1`, each once
(none skipped, none duplicated within the resumed run), starting from the
restored state — it behaves identically to a loop started at `S` with
`min_loss = B` and the checkpoint's optimizer state. -/
theorem train_resume_amended {M O R S : Type} (w : TrainWorld M O R S)
    (cfg : TrainConfig) (cp : Checkpoint M O) (init_model : M) (init_opt : O)
    (init_sampler : R) (h : cp.step ≤ cfg.max_steps) :
    (train_and_validate w cfg (some cp) init_model init_opt init_sampler).executed
      = List.range' cp.step (cfg.max_steps - cp.step)
    ∧ (train_and_validate w cfg (some cp) init_model init_opt
        init_sampler).executed.Nodup
    ∧ train_and_validate w cfg (some cp) init_model init_opt init_sampler
        = train_loop w cfg
            { model := init_model, opt := cp.optimizer,
              sampler := init_sampler, sched := w.sched_init,
              min_loss := cp.min_loss, saved := [], executed := [],
              training_losses := [], validation_losses := [] }
            cp.step (cfg.max_steps - cp.step) := by
  have hexec : (train_and_validate w cfg (some cp) init_model init_opt
      init_sampler).executed = List.range' cp.step (cfg.max_steps - cp.step) := by
    simp [train_and_validate, train_loop_executed]
  refine ⟨hexec, ?_, rfl⟩
  rw [hexec]
  exact List.nodup_range' _ _

/-- Witness for C1 amended: resuming `cfg_4` from `cp_2` runs exactly
steps 2 and 3. -/
theorem train_resume_amended_witness :
    cp_2.step ≤ cfg_4.max_steps
    ∧ (train_and_validate w_unit cfg_4 (some cp_2) () () ()).executed
        = List.range' cp_2.step (cfg_4.max_steps - cp_2.step) :=
  ⟨by decide,
    (train_resume_amended w_unit cfg_4 cp_2 () () () (by decide)).1⟩

end Selene
